import Mathlib

/-!
# BattleCon core module (`src/games/core.js`)

A shallow embedding of the Frostbite core extension module.  The module is
callback glue over three collaborators of the connection object `bc`:
`bc.exec(command, callback)`, the event emitter (`bc.on` / `bc.emit`) and the
socket (`bc.sock.end()`).

* Every closure the source hands to `bc.exec` is a constructor of `Cont`; its
  body is the matching branch of `resume`.
* `exec` does not answer by itself: it records the request together with its
  continuation in `State.pending`.  The server's answer is a `deliver` step,
  which removes the entry and resumes the continuation, so every schedule of
  answers (any order, any result) is a list of `deliver` steps.
* Everything the module does to the outside world is appended to
  `State.trace`, in program order.
* A call that raises inside a closure ends that closure on the spot; the trace
  records it as `Effect.uncaught`.  Two calls can raise: hashing a salt that is
  missing or that the library does not decode, and `bc.emit("error", e)` when
  nobody listens to `error` (`State.errorListener`; the module itself registers
  a `login` listener only).
-/

namespace BattleCon

/-! ## Values -/

/-- A truthy error value handed to a callback by `bc.exec`. -/
structure Err where
  message : String
deriving DecidableEq, Repr

/-- First argument of `bc.exec`: a single word (`"admin.help"`) or an array of words. -/
inductive Command where
  | word (w : String)
  | list (ws : List String)
deriving DecidableEq, Repr

/-- JavaScript values that reach a callback or an event listener; `τ` is the
type of the rows produced by `bc.tabulate`. -/
inductive Val (τ : Type) where
  | null
  | undefined
  | error (e : Err)
  | str (s : String)
  | bool (b : Bool)
  | strings (ws : List String)
  | table (t : τ)
deriving DecidableEq, Repr

/-- A function value passed as `callback`: one supplied by the user of the
module (identified by a number), or one of the two closures of the `login`
listener. -/
inductive Callback where
  | user (id : Nat)
  | ignoreEnabled
  | storeCatalog
deriving DecidableEq, Repr

/-- The closures passed to `bc.exec`, one constructor per closure of the source,
carrying the variables the closure captures. -/
inductive Cont where
  | version (callback : Callback)
  | help (callback : Callback)
  | eventsEnabledQuery (callback : Callback)
  | eventsEnabledSet (callback : Callback)
  | eventsEnabledRequery (callback : Callback)
  | listPlayers (callback : Callback)
  | listPlayersFallback (callback : Callback) (err : Err)
  | serverInfo (callback : Callback)
  | loginSalt (callback : Option Callback)
  | loginConfirm (callback : Option Callback)
  | logout (callback : Option Callback)
  | quit (callback : Option Callback)
deriving DecidableEq, Repr

/-- What the module does to its surroundings, in program order. -/
inductive Effect (τ : Type) where
  | request (command : Command)
  | call (id : Nat) (args : List (Val τ))
  | emit (event : String) (args : List (Val τ))
  | sockEnd
  | setCommands (ws : List String)
  | setVars (ws : List String)
  | setLoggedIn (b : Bool)
  | uncaught
deriving DecidableEq, Repr

/-- The fields of `bc` the module reads or writes, whether anybody listens to
the `error` event of `bc`, the requests awaiting an answer, and the trace of
effects so far. -/
structure State (τ : Type) where
  commands : List String
  vars : List String
  loggedIn : Bool
  pass : String
  sockEnded : Bool
  errorListener : Bool
  pending : List (Command × Cont)
  trace : List (Effect τ)
deriving DecidableEq, Repr

/-- The connection right after `module.exports(bc)` ran: `bc.commands = []`,
`bc.vars = []`, nothing requested yet, and no `error` listener (the module
registers a `login` listener only). -/
def State.fresh (τ : Type) (pass : String) : State τ :=
  { commands := [], vars := [], loggedIn := false, pass := pass,
    sockEnded := false, errorListener := false, pending := [], trace := [] }

/-- A fresh connection on which the user of `bc` has registered a listener for
`error`. -/
def State.attended (τ : Type) (pass : String) : State τ :=
  { State.fresh τ pass with errorListener := true }

/-! ## JavaScript and Node primitives -/

/-- JavaScript `res[i]` on an array of strings: `undefined` past the end. -/
def index {τ : Type} (res : List String) (i : Nat) : Val τ :=
  match res[i]? with
  | some w => Val.str w
  | none => Val.undefined

/-- JavaScript truthiness, as tested by `if (err)`. -/
def truthy {τ : Type} : Val τ → Bool
  | Val.null => false
  | Val.undefined => false
  | Val.error _ => true
  | Val.str s => s != ""
  | Val.bool b => b
  | Val.strings _ => true
  | Val.table _ => true

/-- UTF-16 code units of one Unicode scalar value. -/
def utf16EncodeChar (c : Char) : List Nat :=
  if c.toNat < 65536 then [c.toNat]
  else [55296 + (c.toNat - 65536) / 1024, 56320 + (c.toNat - 65536) % 1024]

/-- A JavaScript string as what it is at run time: a sequence of UTF-16 code
units.  `===` on strings compares these sequences. -/
def utf16 (s : String) : List Nat :=
  s.data.flatMap utf16EncodeChar

/-- JavaScript `s.substring(a, b)` for `a ≤ b`: the code units from position
`a` up to position `b`. -/
def substring (s : String) (a b : Nat) : List Nat :=
  ((utf16 s).drop a).take (b - a)

/-- JavaScript `s.toUpperCase()` on ASCII text (the module applies it to a
hexadecimal digest only). -/
def toUpperCase (s : String) : String :=
  ⟨s.data.map Char.toUpper⟩

/-- Value of a hexadecimal digit, either case. -/
def unhex (c : Char) : Option Nat :=
  if 48 ≤ c.toNat ∧ c.toNat ≤ 57 then some (c.toNat - 48)
  else if 97 ≤ c.toNat ∧ c.toNat ≤ 102 then some (c.toNat - 87)
  else if 65 ≤ c.toNat ∧ c.toNat ≤ 70 then some (c.toNat - 55)
  else none

/-- The bytes written by a text of hexadecimal digit pairs, two digits per
byte. -/
def hexBytes : List Char → List Nat
  | a :: b :: rest =>
    match unhex a, unhex b with
    | some x, some y => (16 * x + y) :: hexBytes rest
    | _, _ => []
  | _ => []

/-- The string consists of pairs of hexadecimal digits. -/
def isHex (s : String) : Bool :=
  s.data.length % 2 == 0 && s.data.all (fun c => (unhex c).isSome)

/-- Library functions the module calls but does not define: `bc.tabulate`, the
MD5 compression of Node's `crypto` (bytes in, digest bytes out), and Node's
decoding of a string under the `"hex"` encoding.  Every Node release decodes a
string of hexadecimal digit pairs to its bytes; on other strings releases
differ (some truncate, some raise), and `none` stands for raising. -/
structure Lib (τ : Type) where
  tabulate : List String → τ
  md5 : List Nat → List Nat
  hexDecode : String → Option (List Nat)
  hexDecode_hex : ∀ s : String, isHex s = true → hexDecode s = some (hexBytes s.data)

/-- UTF-8 encoding of one Unicode scalar value. -/
def utf8EncodeChar (c : Char) : List Nat :=
  let n := c.toNat
  if n < 128 then [n]
  else if n < 2048 then [192 + n / 64, 128 + n % 64]
  else if n < 65536 then [224 + n / 4096, 128 + n / 64 % 64, 128 + n % 64]
  else [240 + n / 262144, 128 + n / 4096 % 64, 128 + n / 64 % 64, 128 + n % 64]

/-- Node's encoding of a string under the `"utf8"` encoding. -/
def utf8Encode (s : String) : List Nat :=
  s.data.flatMap utf8EncodeChar

/-- Input encodings used by the module with `hash.update`. -/
inductive Encoding where
  | hex
  | utf8
deriving DecidableEq, Repr

/-- The object returned by `crypto.createHash("md5")`: the bytes fed so far. -/
structure Hash where
  buffer : List Nat
deriving DecidableEq, Repr

/-- Models `crypto.createHash("md5")`. -/
def createHash : Hash :=
  { buffer := [] }

/-- Models `md.update(data, encoding)`: appends the decoded bytes of a string;
`none` when the call raises (`data` is not a string, or the library refuses to
decode it). -/
def Hash.update {τ : Type} (md : Hash) (lib : Lib τ) (data : Val τ) (encoding : Encoding) :
    Option Hash :=
  match data, encoding with
  | Val.str d, Encoding.hex =>
    (lib.hexDecode d).map (fun bytes => { buffer := md.buffer ++ bytes })
  | Val.str d, Encoding.utf8 => some { buffer := md.buffer ++ utf8Encode d }
  | _, _ => none

/-- Lowercase hexadecimal digit of a value below 16. -/
def hexDigitLower (n : Nat) : Char :=
  if n < 10 then Char.ofNat (48 + n) else Char.ofNat (87 + n)

/-- Models `buffer.toString("hex")`: two lowercase digits per byte. -/
def hexLower (bytes : List Nat) : String :=
  ⟨bytes.flatMap (fun b => [hexDigitLower (b / 16 % 16), hexDigitLower (b % 16)])⟩

/-- Models `md.digest("hex")`. -/
def Hash.digest {τ : Type} (lib : Lib τ) (md : Hash) : String :=
  hexLower (lib.md5 md.buffer)

/-! ## Collaborators of the module: `exec`, the socket, callbacks, `emit` -/

/-- Appends one effect to the trace. -/
def State.log {τ : Type} (s : State τ) (e : Effect τ) : State τ :=
  { s with trace := s.trace ++ [e] }

/-- Models `bc.exec(command, callback)`: the request goes out and its
continuation waits in the pending table for the answer. -/
def exec {τ : Type} (command : Command) (k : Cont) (s : State τ) : State τ :=
  { s with pending := s.pending ++ [(command, k)],
           trace := s.trace ++ [Effect.request command] }

/-- Models `this.sock.end()`. -/
def sockEnd {τ : Type} (s : State τ) : State τ :=
  { s with sockEnded := true, trace := s.trace ++ [Effect.sockEnd] }

/-! ## The operations of the module -/

/-- Source: `bc.version = function(callback)`. -/
def version {τ : Type} (callback : Callback) (s : State τ) : State τ :=
  exec (Command.list ["version"]) (Cont.version callback) s

/-- Source: `bc.help = function(callback)`. -/
def help {τ : Type} (callback : Callback) (s : State τ) : State τ :=
  exec (Command.word "admin.help") (Cont.help callback) s

/-- Source: `bc.eventsEnabled = function(enabled, callback)`; `enabled` is
`none` when the caller passed only a callback (or a non-boolean). -/
def eventsEnabled {τ : Type} (enabled : Option Bool) (callback : Callback)
    (s : State τ) : State τ :=
  match enabled with
  | none => exec (Command.list ["admin.eventsEnabled"]) (Cont.eventsEnabledQuery callback) s
  | some b =>
    exec (Command.list ["admin.eventsEnabled", if b then "true" else "false"])
      (Cont.eventsEnabledSet callback) s

/-- Source: `bc.listPlayers = function(callback)`. -/
def listPlayers {τ : Type} (callback : Callback) (s : State τ) : State τ :=
  exec (Command.list ["admin.listPlayers", "all"]) (Cont.listPlayers callback) s

/-- Source: `bc.serverInfo = function(callback)`. -/
def serverInfo {τ : Type} (callback : Callback) (s : State τ) : State τ :=
  exec (Command.list ["serverInfo"]) (Cont.serverInfo callback) s

/-- Source: `bc.login = function(callback)`. -/
def login {τ : Type} (callback : Option Callback) (s : State τ) : State τ :=
  exec (Command.list ["login.hashed"]) (Cont.loginSalt callback) s

/-- Source: `bc.logout = function(callback)`. -/
def logout {τ : Type} (callback : Option Callback) (s : State τ) : State τ :=
  exec (Command.list ["logout"]) (Cont.logout callback) s

/-- Source: `bc.quit = function(callback)`. -/
def quit {τ : Type} (callback : Option Callback) (s : State τ) : State τ :=
  exec (Command.list ["quit"]) (Cont.quit callback) s

/-- Source: the listener registered by `bc.on("login", function() ...)`:
`bc.eventsEnabled(true, function(err, enabled) {})`, then `bc.help(...)`. -/
def onLogin {τ : Type} (s : State τ) : State τ :=
  help Callback.storeCatalog (eventsEnabled (some true) Callback.ignoreEnabled s)

/-- Models `bc.emit(event, ...args)` of Node's event emitter.  An `error`
emission nobody listens to raises (the emitter throws its argument): `none`.
Otherwise the emission is recorded, which is what the listeners registered
outside this module observe (they are taken to return normally), and for
`login` the module's own listener runs. -/
def emit {τ : Type} (event : String) (args : List (Val τ)) (s : State τ) :
    Option (State τ) :=
  if event = "login" then some (onLogin (s.log (Effect.emit event args)))
  else if event = "error" ∧ s.errorListener = false then none
  else some (s.log (Effect.emit event args))

/-- The `for` loop of the `login` listener over `msg`, pushing every entry with
`msg[i].substring(0, 5) === "vars."` onto `vars`. -/
def collectVars (msg : List String) : List String :=
  msg.foldl (fun vars w => if substring w 0 5 = utf16 "vars." then vars ++ [w] else vars) []

/-- Source: the closure `function(err, msg)` the `login` listener passes to
`bc.help`. -/
def storeCatalog {τ : Type} (err msg : Val τ) (s : State τ) : State τ :=
  if truthy err then s
  else
    match msg with
    | Val.strings ws =>
      let s1 := { s with commands := ws, trace := s.trace ++ [Effect.setCommands ws] }
      let vars := collectVars ws
      let s2 := { s1 with vars := vars, trace := s1.trace ++ [Effect.setVars vars] }
      match emit "ready" [] s2 with
      | some s3 => s3
      | none => s2.log Effect.uncaught
    | _ => s.log Effect.uncaught

/-- Calling a function value with arguments: a user callback is recorded in the
trace, the closures of the `login` listener run their bodies. -/
def invoke {τ : Type} (callback : Callback) (args : List (Val τ)) (s : State τ) : State τ :=
  match callback with
  | Callback.user id => s.log (Effect.call id args)
  | Callback.ignoreEnabled => s
  | Callback.storeCatalog =>
    storeCatalog (args.getD 0 Val.undefined) (args.getD 1 Val.undefined) s

/-- Source: `if (callback) callback(...)` for an optional callback. -/
def invokeIfGiven {τ : Type} (callback : Option Callback) (args : List (Val τ))
    (s : State τ) : State τ :=
  match callback with
  | some cb => invoke cb args s
  | none => s

/-- The bodies of the closures passed to `bc.exec`, run when the answer
`(err, res)` of the request arrives. -/
def resume {τ : Type} (lib : Lib τ) (k : Cont) (r : Except Err (List String))
    (s : State τ) : State τ :=
  match k, r with
  | Cont.version cb, Except.error err => invoke cb [Val.error err] s
  | Cont.version cb, Except.ok res => invoke cb [Val.null, index res 0, index res 1] s
  | Cont.help cb, Except.error err => invoke cb [Val.error err] s
  | Cont.help cb, Except.ok res => invoke cb [Val.null, Val.strings res] s
  | Cont.eventsEnabledQuery cb, Except.error err => invoke cb [Val.error err] s
  | Cont.eventsEnabledQuery cb, Except.ok res =>
    invoke cb [Val.null, Val.bool (res[0]? == some "true")] s
  | Cont.eventsEnabledSet cb, Except.error err => invoke cb [Val.error err] s
  | Cont.eventsEnabledSet cb, Except.ok _ =>
    exec (Command.list ["admin.eventsEnabled"]) (Cont.eventsEnabledRequery cb) s
  | Cont.eventsEnabledRequery cb, Except.error err => invoke cb [Val.error err] s
  | Cont.eventsEnabledRequery cb, Except.ok res =>
    invoke cb [Val.null, Val.bool (res[0]? == some "true")] s
  | Cont.listPlayers cb, Except.error err =>
    exec (Command.list ["listPlayers"]) (Cont.listPlayersFallback cb err) s
  | Cont.listPlayers cb, Except.ok res =>
    invoke cb [Val.null, Val.table (lib.tabulate res)] s
  | Cont.listPlayersFallback cb err, Except.error _ => invoke cb [Val.error err] s
  | Cont.listPlayersFallback cb _, Except.ok res2 =>
    invoke cb [Val.null, Val.table (lib.tabulate res2)] s
  | Cont.serverInfo cb, Except.error err => invoke cb [Val.error err] s
  | Cont.serverInfo cb, Except.ok res => invoke cb [Val.null, Val.strings res] s
  | Cont.loginSalt cb, Except.error err =>
    match emit "error" [Val.error err] (sockEnd s) with
    | some s1 => invokeIfGiven cb [Val.error err] s1
    | none => (sockEnd s).log Effect.uncaught
  | Cont.loginSalt cb, Except.ok res =>
    match (createHash.update lib (index res 0) Encoding.hex).bind
        (fun md => md.update lib (Val.str s.pass) Encoding.utf8) with
    | none => s.log Effect.uncaught
    | some md =>
      exec (Command.list ["login.hashed", toUpperCase (md.digest lib)])
        (Cont.loginConfirm cb) s
  | Cont.loginConfirm cb, Except.error err =>
    match emit "error" [Val.error err] (sockEnd s) with
    | some s1 => invokeIfGiven cb [Val.error err] s1
    | none => (sockEnd s).log Effect.uncaught
  | Cont.loginConfirm cb, Except.ok _ =>
    let s1 := { s with loggedIn := true, trace := s.trace ++ [Effect.setLoggedIn true] }
    match emit "login" [] s1 with
    | some s2 => invokeIfGiven cb [Val.null] s2
    | none => s1.log Effect.uncaught
  | Cont.logout cb, Except.error err => invokeIfGiven cb [Val.error err] s
  | Cont.logout cb, Except.ok _ => invokeIfGiven cb [Val.null] s
  | Cont.quit cb, Except.error err => invokeIfGiven cb [Val.error err] s
  | Cont.quit cb, Except.ok _ => invokeIfGiven cb [Val.null] s

/-- The answer `r` to the `i`-th pending request arrives: the entry leaves the
table and its continuation runs.  Nothing happens when there is no such entry. -/
def deliver {τ : Type} (lib : Lib τ) (i : Nat) (r : Except Err (List String))
    (s : State τ) : State τ :=
  match s.pending[i]? with
  | none => s
  | some (_, k) => resume lib k r { s with pending := s.pending.eraseIdx i }

/-- A schedule of answers, delivered one after the other. -/
def run {τ : Type} (lib : Lib τ) (script : List (Nat × Except Err (List String)))
    (s : State τ) : State τ :=
  script.foldl (fun st a => deliver lib a.1 a.2 st) s

/-! ## Specification-side vocabulary -/

/-- The text `w` begins with the literal text `p`. -/
def beginsWith (p w : String) : Prop :=
  p.data <+: w.data

instance (p w : String) : Decidable (beginsWith p w) := by
  unfold beginsWith; infer_instance

/-- The entries of a help listing that begin with `"vars."`, in order. -/
def varsOf (msg : List String) : List String :=
  msg.filter (fun w => decide (beginsWith "vars." w))

/-- Uppercase hexadecimal digit of a value below 16. -/
def hexDigitUpper (n : Nat) : Char :=
  if n < 10 then Char.ofNat (48 + n) else Char.ofNat (55 + n)

/-- Uppercase hexadecimal rendering, two digits per byte. -/
def hexUpper (bytes : List Nat) : String :=
  ⟨bytes.flatMap (fun b => [hexDigitUpper (b / 16 % 16), hexDigitUpper (b % 16)])⟩

/-- The text the server expects as proof of the password: uppercase
hexadecimal MD5 of the decoded salt followed by the UTF-8 password. -/
def loginDigest {τ : Type} (lib : Lib τ) (saltBytes : List Nat) (pass : String) : String :=
  hexUpper (lib.md5 (saltBytes ++ utf8Encode pass))

/-- The error `e` is among the arguments of a callback invocation or of an
`error` emission: it reached somebody outside the module. -/
def reports {τ : Type} (e : Err) : Effect τ → Bool
  | Effect.call _ args =>
    args.any (fun v => match v with
      | Val.error x => decide (x = e)
      | _ => false)
  | Effect.emit event args =>
    decide (event = "error") && args.any (fun v => match v with
      | Val.error x => decide (x = e)
      | _ => false)
  | _ => false

/-- The caller's callback a continuation hands a failure to, for the
continuations of `version`, `help`, `eventsEnabled`, `serverInfo`, `logout` and
`quit` that work for a caller. -/
def Cont.reportsTo : Cont → Option Nat
  | Cont.version (Callback.user cb) => some cb
  | Cont.help (Callback.user cb) => some cb
  | Cont.eventsEnabledQuery (Callback.user cb) => some cb
  | Cont.eventsEnabledSet (Callback.user cb) => some cb
  | Cont.eventsEnabledRequery (Callback.user cb) => some cb
  | Cont.serverInfo (Callback.user cb) => some cb
  | Cont.logout (some (Callback.user cb)) => some cb
  | Cont.quit (some (Callback.user cb)) => some cb
  | _ => none

/-- The continuations of the three requests the `login` listener causes: the
set and the query of `eventsEnabled(true, function(err, enabled) {})` and the
`admin.help` of its storing closure. -/
def Cont.ofLoginListener : Cont → Bool
  | Cont.eventsEnabledSet Callback.ignoreEnabled => true
  | Cont.eventsEnabledRequery Callback.ignoreEnabled => true
  | Cont.help Callback.storeCatalog => true
  | _ => false

/-- The callback a continuation captured, if any. -/
def Cont.callback? : Cont → Option Callback
  | Cont.version cb => some cb
  | Cont.help cb => some cb
  | Cont.eventsEnabledQuery cb => some cb
  | Cont.eventsEnabledSet cb => some cb
  | Cont.eventsEnabledRequery cb => some cb
  | Cont.listPlayers cb => some cb
  | Cont.listPlayersFallback cb _ => some cb
  | Cont.serverInfo cb => some cb
  | Cont.loginSalt cb => cb
  | Cont.loginConfirm cb => cb
  | Cont.logout cb => cb
  | Cont.quit cb => cb

/-- A call of one of the eight operations of the module by its user. -/
inductive Op where
  | version (callback : Callback)
  | help (callback : Callback)
  | eventsEnabled (enabled : Option Bool) (callback : Callback)
  | listPlayers (callback : Callback)
  | serverInfo (callback : Callback)
  | login (callback : Option Callback)
  | logout (callback : Option Callback)
  | quit (callback : Option Callback)
deriving DecidableEq, Repr

/-- Runs the called operation up to its first request. -/
def Op.start {τ : Type} (op : Op) (s : State τ) : State τ :=
  match op with
  | Op.version cb => BattleCon.version cb s
  | Op.help cb => BattleCon.help cb s
  | Op.eventsEnabled enabled cb => BattleCon.eventsEnabled enabled cb s
  | Op.listPlayers cb => BattleCon.listPlayers cb s
  | Op.serverInfo cb => BattleCon.serverInfo cb s
  | Op.login cb => BattleCon.login cb s
  | Op.logout cb => BattleCon.logout cb s
  | Op.quit cb => BattleCon.quit cb s

/-- The callback the operation was called with, if any. -/
def Op.callback? : Op → Option Callback
  | Op.version cb => some cb
  | Op.help cb => some cb
  | Op.eventsEnabled _ cb => some cb
  | Op.listPlayers cb => some cb
  | Op.serverInfo cb => some cb
  | Op.login cb => cb
  | Op.logout cb => cb
  | Op.quit cb => cb

/-- The number of invocations of the user callback `id` recorded in a trace. -/
def callsOf {τ : Type} (id : Nat) (t : List (Effect τ)) : Nat :=
  t.countP (fun e => match e with
    | Effect.call j _ => decide (j = id)
    | _ => false)

/-- One when the continuation still has to invoke the user callback `id`. -/
def Cont.owes (id : Nat) (k : Cont) : Nat :=
  if k.callback? = some (Callback.user id) then 1 else 0

/-- One when the operation was called with the user callback `id`. -/
def Op.owes (id : Nat) (op : Op) : Nat :=
  if op.callback? = some (Callback.user id) then 1 else 0

/-- The invocations of the user callback `id` the pending requests still owe. -/
def owed (id : Nat) (p : List (Command × Cont)) : Nat :=
  (p.map (fun x => x.2.owes id)).sum

/-- The answer `r` to the request continued by `k` lets the hashing of `login`
go through: a successful answer to the salt request carries a first word the
library decodes.  Every answer to any other request qualifies. -/
def saltDecodes {τ : Type} (lib : Lib τ) (k : Cont) (r : Except Err (List String)) : Bool :=
  match k, r with
  | Cont.loginSalt _, Except.ok res =>
    match res[0]? with
    | some salt => (lib.hexDecode salt).isSome
    | none => false
  | _, _ => true

/-- Along the schedule `script` started in `s`, every answer delivered to a
salt request satisfies `saltDecodes`. -/
def saltsDecode {τ : Type} (lib : Lib τ) :
    List (Nat × Except Err (List String)) → State τ → Bool
  | [], _ => true
  | a :: rest, s =>
    (match s.pending[a.1]? with
      | some (_, k) => saltDecodes lib k a.2
      | none => true)
    && saltsDecode lib rest (deliver lib a.1 a.2 s)

/-- The call a given optional user callback receives, as a piece of trace. -/
def callIfGiven {τ : Type} (callback : Option Nat) (args : List (Val τ)) : List (Effect τ) :=
  match callback with
  | some id => [Effect.call id args]
  | none => []

/-- A library used to evaluate the model on concrete inputs: rows are the
response words themselves, the digest function returns its input, and decoding
raises on anything but hexadecimal digit pairs. -/
def Lib.sample : Lib (List String) :=
  { tabulate := fun ws => ws,
    md5 := fun bytes => bytes,
    hexDecode := fun s => if isHex s = true then some (hexBytes s.data) else none,
    hexDecode_hex := fun s h => by simp [h] }

/-- Two logins on one connection, each run until every request is answered.
In the first the listener's `admin.help` is answered with `["vars.a", "b"]`, in
the second it fails. -/
def twoLogins : State (List String) :=
  run Lib.sample
    [(0, Except.ok ["2B"]), (0, Except.ok []), (1, Except.error { message := "busy" }),
     (0, Except.ok []), (0, Except.ok ["true"])]
    (login none
      (run Lib.sample
        [(0, Except.ok ["2A"]), (0, Except.ok []), (1, Except.ok ["vars.a", "b"]),
         (0, Except.ok []), (0, Except.ok ["true"])]
        (login none (State.fresh (List String) "pw"))))

/-! ## Auxiliary lemmas -/

theorem char_eq_of_toNat_eq (c d : Char) (h : c.toNat = d.toNat) : c = d := by
  apply Char.ext
  apply UInt32.ext
  exact h

theorem take_utf16_ascii (p l : List Char) (hp : ∀ c ∈ p, c.toNat < 128) :
    (l.flatMap utf16EncodeChar).take p.length = p.map Char.toNat ↔ p <+: l := by
  induction p generalizing l with
  | nil => simp
  | cons c p ih =>
    have hc : c.toNat < 128 := hp c (List.mem_cons_self c p)
    have hp2 : ∀ x ∈ p, x.toNat < 128 := fun x hx => hp x (List.mem_cons_of_mem c hx)
    cases l with
    | nil => simp
    | cons d l =>
      simp only [List.flatMap_cons, List.length_cons, List.map_cons, List.cons_prefix_cons]
      by_cases hd : d.toNat < 65536
      · simp only [utf16EncodeChar, hd, if_true, List.cons_append, List.nil_append,
          List.take_succ_cons, List.cons.injEq]
        rw [ih l hp2]
        constructor
        · rintro ⟨h1, h2⟩
          exact ⟨char_eq_of_toNat_eq c d h1.symm, h2⟩
        · rintro ⟨h1, h2⟩
          exact ⟨by rw [h1], h2⟩
      · simp only [utf16EncodeChar, hd, if_false, List.cons_append, List.take_succ_cons,
          List.cons.injEq]
        constructor
        · rintro ⟨h1, _⟩
          omega
        · rintro ⟨h1, _⟩
          subst h1
          omega

theorem substring_vars_iff (w : String) :
    substring w 0 5 = utf16 "vars." ↔ beginsWith "vars." w := by
  have h := take_utf16_ascii "vars.".data w.data (by decide)
  have h1 : utf16 "vars." = "vars.".data.map Char.toNat := by decide
  have h2 : "vars.".data.length = 5 := by decide
  rw [h2] at h
  unfold substring beginsWith
  rw [h1, ← h]
  simp [utf16]

theorem collectVars_loop (msg acc : List String) :
    msg.foldl (fun vars w => if substring w 0 5 = utf16 "vars." then vars ++ [w] else vars)
        acc
      = acc ++ varsOf msg := by
  induction msg generalizing acc with
  | nil => simp [varsOf]
  | cons w ws ih =>
    rw [List.foldl_cons, ih]
    by_cases h : substring w 0 5 = utf16 "vars."
    · have hb : beginsWith "vars." w := (substring_vars_iff w).1 h
      simp [varsOf, h, hb]
    · have hb : ¬ beginsWith "vars." w := fun hb => h ((substring_vars_iff w).2 hb)
      simp [varsOf, h, hb]

theorem collectVars_eq_varsOf (msg : List String) : collectVars msg = varsOf msg := by
  unfold collectVars
  rw [collectVars_loop]
  simp

theorem toUpper_hexDigitLower (n : Nat) (h : n < 16) :
    Char.toUpper (hexDigitLower n) = hexDigitUpper n := by
  interval_cases n <;> decide

theorem toUpperCase_hexLower (bytes : List Nat) :
    toUpperCase (hexLower bytes) = hexUpper bytes := by
  unfold toUpperCase hexLower hexUpper
  congr 1
  induction bytes with
  | nil => rfl
  | cons b bs ih =>
    simp only [List.flatMap_cons, List.map_append, List.map_cons, List.map_nil, ih]
    rw [toUpper_hexDigitLower _ (Nat.mod_lt _ (by decide)),
      toUpper_hexDigitLower _ (Nat.mod_lt _ (by decide))]


theorem deliver_exec {τ : Type} (lib : Lib τ) (command : Command) (k : Cont)
    (r : Except Err (List String)) (s : State τ) :
    deliver lib s.pending.length r (exec command k s)
      = resume lib k r { s with trace := s.trace ++ [Effect.request command] } := by
  simp [deliver, exec, List.getElem?_append_right, List.eraseIdx_append_of_length_le]

theorem deliver_exec_at {τ : Type} (lib : Lib τ) (command : Command) (k : Cont)
    (r : Except Err (List String)) (s : State τ) (n : Nat) (h : n = s.pending.length) :
    deliver lib n r (exec command k s)
      = resume lib k r { s with trace := s.trace ++ [Effect.request command] } := by
  subst h
  exact deliver_exec lib command k r s

theorem first_word_true (res : List String) :
    decide (res.head? = some "true") = (res[0]? == some "true") := by
  cases res with
  | nil => rfl
  | cons w ws => by_cases h : w = "true" <;> simp [h]

theorem listPlayers_fails_twice {τ : Type} (lib : Lib τ) (s : State τ) (cb : Nat)
    (e1 e2 : Err) :
    deliver lib s.pending.length (Except.error e2)
        (deliver lib s.pending.length (Except.error e1) (listPlayers (Callback.user cb) s))
      = { s with
          trace := s.trace ++ [Effect.request (Command.list ["admin.listPlayers", "all"]),
            Effect.request (Command.list ["listPlayers"]),
            Effect.call cb [Val.error e1]] } := by
  rw [listPlayers, deliver_exec]
  simp only [resume]
  refine Eq.trans (deliver_exec_at lib _ _ _ _ _ rfl) ?_
  simp [resume, invoke, State.log]

theorem emit_ready {τ : Type} (s : State τ) :
    emit "ready" [] s = some (s.log (Effect.emit "ready" [])) := by
  simp [emit]

theorem emit_login {τ : Type} (args : List (Val τ)) (s : State τ) :
    emit "login" args s = some (onLogin (s.log (Effect.emit "login" args))) := by
  simp [emit]

theorem emit_error {τ : Type} (args : List (Val τ)) (s : State τ) :
    emit "error" args s
      = if s.errorListener = true then some (s.log (Effect.emit "error" args)) else none := by
  cases h : s.errorListener <;> simp [emit, h]

theorem storeCatalog_strings {τ : Type} (ws : List String) (s : State τ) :
    storeCatalog Val.null (Val.strings ws) s
      = { s with
          commands := ws, vars := collectVars ws,
          trace := s.trace ++ [Effect.setCommands ws, Effect.setVars (collectVars ws),
            Effect.emit "ready" []] } := by
  simp [storeCatalog, truthy, emit_ready, State.log]

theorem storeCatalog_frame {τ : Type} (err msg : Val τ) (s : State τ) :
    (storeCatalog err msg s).pending = s.pending ∧
    (storeCatalog err msg s).errorListener = s.errorListener ∧
    ∀ id, callsOf id (storeCatalog err msg s).trace = callsOf id s.trace := by
  unfold storeCatalog
  split
  · simp
  · split <;> simp [emit_ready, State.log, callsOf]

theorem resume_login_failure {τ : Type} (lib : Lib τ) (k : Cont) (cb : Option Callback)
    (e : Err) (s : State τ) (hk : k = Cont.loginSalt cb ∨ k = Cont.loginConfirm cb) :
    resume lib k (Except.error e) s
      = if s.errorListener = true then
          invokeIfGiven cb [Val.error e]
            { s with sockEnded := true,
                     trace := s.trace ++ [Effect.sockEnd, Effect.emit "error" [Val.error e]] }
        else
          { s with sockEnded := true,
                   trace := s.trace ++ [Effect.sockEnd, Effect.uncaught] } := by
  rcases hk with hk | hk <;> subst hk <;>
    cases hl : s.errorListener <;> simp [resume, emit_error, sockEnd, State.log, hl]

theorem resume_login_success {τ : Type} (lib : Lib τ) (cb : Option Callback)
    (res : List String) (s : State τ) :
    resume lib (Cont.loginConfirm cb) (Except.ok res) s
      = invokeIfGiven cb [Val.null]
          { s with
            loggedIn := true,
            pending := s.pending ++
              [(Command.list ["admin.eventsEnabled", "true"],
                  Cont.eventsEnabledSet Callback.ignoreEnabled),
               (Command.word "admin.help", Cont.help Callback.storeCatalog)],
            trace := s.trace ++ [Effect.setLoggedIn true, Effect.emit "login" [],
              Effect.request (Command.list ["admin.eventsEnabled", "true"]),
              Effect.request (Command.word "admin.help")] } := by
  simp [resume, emit_login, onLogin, help, eventsEnabled, exec, State.log]

theorem invoke_error_catalog {τ : Type} (cb : Callback) (e : Err) (s : State τ) :
    (invoke cb [Val.error e] s).commands = s.commands ∧
    (invoke cb [Val.error e] s).vars = s.vars := by
  cases cb <;> simp [invoke, storeCatalog, truthy, State.log]

theorem invoke_other_catalog {τ : Type} (cb : Callback) (args : List (Val τ)) (s : State τ)
    (h : cb ≠ Callback.storeCatalog) :
    (invoke cb args s).commands = s.commands ∧ (invoke cb args s).vars = s.vars := by
  cases cb <;> simp_all [invoke, State.log]

theorem invokeIfGiven_error_catalog {τ : Type} (cb : Option Callback) (e : Err)
    (s : State τ) :
    (invokeIfGiven cb [Val.error e] s).commands = s.commands ∧
    (invokeIfGiven cb [Val.error e] s).vars = s.vars := by
  cases cb with
  | none => simp [invokeIfGiven]
  | some c => simpa [invokeIfGiven] using invoke_error_catalog c e s

theorem resume_error_catalog {τ : Type} (lib : Lib τ) (k : Cont) (e : Err) (s : State τ) :
    (resume lib k (Except.error e) s).commands = s.commands ∧
    (resume lib k (Except.error e) s).vars = s.vars := by
  cases k with
  | listPlayers c => simp [resume, exec]
  | listPlayersFallback c e1 => simpa [resume] using invoke_error_catalog c e1 s
  | loginSalt c =>
    rw [resume_login_failure lib _ c e s (Or.inl rfl)]
    split
    · simpa using invokeIfGiven_error_catalog c e _
    · simp
  | loginConfirm c =>
    rw [resume_login_failure lib _ c e s (Or.inr rfl)]
    split
    · simpa using invokeIfGiven_error_catalog c e _
    · simp
  | logout c => simpa [resume] using invokeIfGiven_error_catalog c e s
  | quit c => simpa [resume] using invokeIfGiven_error_catalog c e s
  | _ => simpa [resume] using invoke_error_catalog _ e s

theorem resume_other_catalog {τ : Type} (lib : Lib τ) (k : Cont)
    (r : Except Err (List String)) (s : State τ)
    (h : k.callback? ≠ some Callback.storeCatalog) :
    (resume lib k r s).commands = s.commands ∧ (resume lib k r s).vars = s.vars := by
  cases r with
  | error e => exact resume_error_catalog lib k e s
  | ok res =>
    cases k with
    | eventsEnabledSet c => simp [resume, exec]
    | loginSalt c =>
      simp only [resume]
      split <;> simp [State.log, exec]
    | loginConfirm c =>
      rw [resume_login_success]
      rcases c with _ | c
      · simp [invokeIfGiven]
      · simp only [Cont.callback?, ne_eq, Option.some.injEq] at h
        simpa [invokeIfGiven] using invoke_other_catalog c [Val.null] _ h
    | logout c =>
      rcases c with _ | c
      · simp [resume, invokeIfGiven]
      · simp only [Cont.callback?, ne_eq, Option.some.injEq] at h
        simpa [resume, invokeIfGiven] using invoke_other_catalog c [Val.null] s h
    | quit c =>
      rcases c with _ | c
      · simp [resume, invokeIfGiven]
      · simp only [Cont.callback?, ne_eq, Option.some.injEq] at h
        simpa [resume, invokeIfGiven] using invoke_other_catalog c [Val.null] s h
    | _ =>
      simp only [Cont.callback?, ne_eq, Option.some.injEq] at h
      simpa [resume] using invoke_other_catalog _ _ s h

theorem deliver_of_pending {τ : Type} (lib : Lib τ) (i : Nat) (command : Command) (k : Cont)
    (r : Except Err (List String)) (s : State τ) (h : s.pending[i]? = some (command, k)) :
    deliver lib i r s = resume lib k r { s with pending := s.pending.eraseIdx i } := by
  simp [deliver, h]

theorem owed_nil (id : Nat) : owed id [] = 0 := rfl

theorem owed_append (id : Nat) (p q : List (Command × Cont)) :
    owed id (p ++ q) = owed id p + owed id q := by
  simp [owed]

theorem owed_single (id : Nat) (c : Command) (k : Cont) : owed id [(c, k)] = k.owes id := by
  simp [owed]

theorem owed_eraseIdx (id : Nat) (p : List (Command × Cont)) (i : Nat) (c : Command)
    (k : Cont) (h : p[i]? = some (c, k)) :
    owed id (p.eraseIdx i) + k.owes id = owed id p := by
  induction p generalizing i with
  | nil => simp at h
  | cons x xs ih =>
    cases i with
    | zero =>
      simp only [List.getElem?_cons_zero, Option.some.injEq] at h
      subst h
      simp [owed, Nat.add_comm]
    | succ j =>
      simp only [List.getElem?_cons_succ] at h
      have := ih j h
      simp only [owed, List.eraseIdx_cons_succ, List.map_cons, List.sum_cons] at this ⊢
      omega

theorem callsOf_append {τ : Type} (id : Nat) (t u : List (Effect τ)) :
    callsOf id (t ++ u) = callsOf id t + callsOf id u := by
  simp [callsOf]

theorem exec_calls {τ : Type} (id : Nat) (c : Command) (k : Cont) (s : State τ) :
    callsOf id (exec c k s).trace = callsOf id s.trace := by
  simp [exec, callsOf_append, callsOf]

theorem exec_owed {τ : Type} (id : Nat) (c : Command) (k : Cont) (s : State τ) :
    owed id (exec c k s).pending = owed id s.pending + k.owes id := by
  simp [exec, owed_append, owed_single]

theorem start_balance {τ : Type} (op : Op) (id : Nat) (s : State τ) :
    callsOf id (op.start s).trace = callsOf id s.trace ∧
    owed id (op.start s).pending = owed id s.pending + op.owes id ∧
    (op.start s).errorListener = s.errorListener := by
  cases op with
  | eventsEnabled enabled cb =>
    cases enabled <;> refine ⟨?_, ?_, rfl⟩ <;>
      simp [Op.start, eventsEnabled, exec_calls, exec_owed, Op.owes, Cont.owes,
        Op.callback?, Cont.callback?]
  | _ =>
    refine ⟨?_, ?_, rfl⟩ <;>
      simp [Op.start, version, help, listPlayers, serverInfo, login, logout, quit,
        exec_calls, exec_owed, Op.owes, Cont.owes, Op.callback?, Cont.callback?]

theorem invoke_frame {τ : Type} (id : Nat) (cb : Callback) (args : List (Val τ))
    (s : State τ) :
    callsOf id (invoke cb args s).trace
      = callsOf id s.trace + (if cb = Callback.user id then 1 else 0) ∧
    (invoke cb args s).pending = s.pending ∧
    (invoke cb args s).errorListener = s.errorListener := by
  cases cb with
  | user j =>
    by_cases h : j = id <;> simp [invoke, State.log, callsOf_append, callsOf, h]
  | ignoreEnabled => simp [invoke]
  | storeCatalog =>
    obtain ⟨h1, h2, h3⟩ :=
      storeCatalog_frame (args.getD 0 Val.undefined) (args.getD 1 Val.undefined) s
    refine ⟨?_, h1, h2⟩
    rw [show invoke Callback.storeCatalog args s
      = storeCatalog (args.getD 0 Val.undefined) (args.getD 1 Val.undefined) s from rfl, h3]
    simp

theorem invokeIfGiven_frame {τ : Type} (id : Nat) (cb : Option Callback)
    (args : List (Val τ)) (s : State τ) :
    callsOf id (invokeIfGiven cb args s).trace
      = callsOf id s.trace + (if cb = some (Callback.user id) then 1 else 0) ∧
    (invokeIfGiven cb args s).pending = s.pending ∧
    (invokeIfGiven cb args s).errorListener = s.errorListener := by
  cases cb with
  | none => simp [invokeIfGiven]
  | some c => simpa [invokeIfGiven] using invoke_frame id c args s

theorem hashing_raises {τ : Type} (lib : Lib τ) (c : Option Callback) (res : List String)
    (pass : String)
    (h : (createHash.update lib (index res 0) Encoding.hex).bind
        (fun md => md.update lib (Val.str pass) Encoding.utf8) = none) :
    saltDecodes lib (Cont.loginSalt c) (Except.ok res) = false := by
  cases hres : res[0]? with
  | none => simp [saltDecodes, hres]
  | some salt =>
    cases hd : lib.hexDecode salt with
    | none => simp [saltDecodes, hres, hd]
    | some bytes => simp [index, hres, Hash.update, createHash, hd] at h

theorem resume_balance {τ : Type} (lib : Lib τ) (id : Nat) (k : Cont)
    (r : Except Err (List String)) (s : State τ) :
    callsOf id (resume lib k r s).trace + owed id (resume lib k r s).pending
      ≤ callsOf id s.trace + owed id s.pending + k.owes id ∧
    (s.errorListener = true → saltDecodes lib k r = true →
      callsOf id (resume lib k r s).trace + owed id (resume lib k r s).pending
        = callsOf id s.trace + owed id s.pending + k.owes id) ∧
    callsOf id s.trace ≤ callsOf id (resume lib k r s).trace ∧
    (resume lib k r s).errorListener = s.errorListener := by
  have settle : ∀ t : State τ, resume lib k r s = t →
      callsOf id t.trace + owed id t.pending
        = callsOf id s.trace + owed id s.pending + k.owes id →
      callsOf id s.trace ≤ callsOf id t.trace → t.errorListener = s.errorListener →
      callsOf id (resume lib k r s).trace + owed id (resume lib k r s).pending
        ≤ callsOf id s.trace + owed id s.pending + k.owes id ∧
      (s.errorListener = true → saltDecodes lib k r = true →
        callsOf id (resume lib k r s).trace + owed id (resume lib k r s).pending
          = callsOf id s.trace + owed id s.pending + k.owes id) ∧
      callsOf id s.trace ≤ callsOf id (resume lib k r s).trace ∧
      (resume lib k r s).errorListener = s.errorListener := by
    intro t ht e m l
    rw [ht]
    exact ⟨Nat.le_of_eq e, fun _ _ => e, m, l⟩
  have viaInvoke : ∀ (cb : Callback) (args : List (Val τ)) (t : State τ),
      callsOf id t.trace = callsOf id s.trace → t.pending = s.pending →
      t.errorListener = s.errorListener →
      k.owes id = (if cb = Callback.user id then 1 else 0) →
      callsOf id (invoke cb args t).trace + owed id (invoke cb args t).pending
          = callsOf id s.trace + owed id s.pending + k.owes id ∧
        callsOf id s.trace ≤ callsOf id (invoke cb args t).trace ∧
        (invoke cb args t).errorListener = s.errorListener := by
    intro cb args t hc hp hl ho
    obtain ⟨h1, h2, h3⟩ := invoke_frame id cb args t
    rw [h1, h2, h3, hc, hp, hl, ho]
    refine ⟨?_, ?_, rfl⟩ <;> omega
  have viaGiven : ∀ (cb : Option Callback) (args : List (Val τ)) (t : State τ),
      callsOf id t.trace = callsOf id s.trace → owed id t.pending = owed id s.pending →
      t.errorListener = s.errorListener →
      k.owes id = (if cb = some (Callback.user id) then 1 else 0) →
      callsOf id (invokeIfGiven cb args t).trace + owed id (invokeIfGiven cb args t).pending
          = callsOf id s.trace + owed id s.pending + k.owes id ∧
        callsOf id s.trace ≤ callsOf id (invokeIfGiven cb args t).trace ∧
        (invokeIfGiven cb args t).errorListener = s.errorListener := by
    intro cb args t hc hp hl ho
    obtain ⟨h1, h2, h3⟩ := invokeIfGiven_frame id cb args t
    rw [h1, h2, h3, hc, hp, hl, ho]
    refine ⟨?_, ?_, rfl⟩ <;> omega
  have viaExec : ∀ (c : Command) (k2 : Cont), k2.owes id = k.owes id →
      callsOf id (exec c k2 s).trace + owed id (exec c k2 s).pending
          = callsOf id s.trace + owed id s.pending + k.owes id ∧
        callsOf id s.trace ≤ callsOf id (exec c k2 s).trace ∧
        (exec c k2 s).errorListener = s.errorListener := by
    intro c k2 hk
    rw [exec_calls, exec_owed, hk]
    exact ⟨by omega, Nat.le_refl _, rfl⟩
  have fail : ∀ (cb : Option Callback) (e : Err),
      (k = Cont.loginSalt cb ∨ k = Cont.loginConfirm cb) → r = Except.error e →
      callsOf id (resume lib k r s).trace + owed id (resume lib k r s).pending
        ≤ callsOf id s.trace + owed id s.pending + k.owes id ∧
      (s.errorListener = true → saltDecodes lib k r = true →
        callsOf id (resume lib k r s).trace + owed id (resume lib k r s).pending
          = callsOf id s.trace + owed id s.pending + k.owes id) ∧
      callsOf id s.trace ≤ callsOf id (resume lib k r s).trace ∧
      (resume lib k r s).errorListener = s.errorListener := by
    intro cb e hk hr
    have hown : k.owes id = (if cb = some (Callback.user id) then 1 else 0) := by
      rcases hk with hk | hk <;> subst hk <;> simp [Cont.owes, Cont.callback?]
    subst hr
    by_cases hl : s.errorListener = true
    · obtain ⟨a, b, c⟩ := viaGiven cb [Val.error e]
        { s with sockEnded := true,
                 trace := s.trace ++ [Effect.sockEnd, Effect.emit "error" [Val.error e]] }
        (by simp [callsOf]) rfl rfl hown
      exact settle _ (by rw [resume_login_failure lib k cb e s hk, if_pos hl]) a b c
    · rw [resume_login_failure lib k cb e s hk, if_neg hl]
      refine ⟨?_, fun h _ => absurd h hl, ?_, rfl⟩ <;> simp [callsOf]
  cases k with
  | version c =>
    cases r <;>
      exact (fun h => settle _ rfl h.1 h.2.1 h.2.2)
        (viaInvoke c _ s rfl rfl rfl (by simp [Cont.owes, Cont.callback?]))
  | help c =>
    cases r <;>
      exact (fun h => settle _ rfl h.1 h.2.1 h.2.2)
        (viaInvoke c _ s rfl rfl rfl (by simp [Cont.owes, Cont.callback?]))
  | eventsEnabledQuery c =>
    cases r <;>
      exact (fun h => settle _ rfl h.1 h.2.1 h.2.2)
        (viaInvoke c _ s rfl rfl rfl (by simp [Cont.owes, Cont.callback?]))
  | eventsEnabledSet c =>
    cases r with
    | error e =>
      exact (fun h => settle _ rfl h.1 h.2.1 h.2.2)
        (viaInvoke c _ s rfl rfl rfl (by simp [Cont.owes, Cont.callback?]))
    | ok res =>
      exact (fun h => settle _ rfl h.1 h.2.1 h.2.2)
        (viaExec _ (Cont.eventsEnabledRequery c) rfl)
  | eventsEnabledRequery c =>
    cases r <;>
      exact (fun h => settle _ rfl h.1 h.2.1 h.2.2)
        (viaInvoke c _ s rfl rfl rfl (by simp [Cont.owes, Cont.callback?]))
  | listPlayers c =>
    cases r with
    | error e =>
      exact (fun h => settle _ rfl h.1 h.2.1 h.2.2)
        (viaExec _ (Cont.listPlayersFallback c e) rfl)
    | ok res =>
      exact (fun h => settle _ rfl h.1 h.2.1 h.2.2)
        (viaInvoke c _ s rfl rfl rfl (by simp [Cont.owes, Cont.callback?]))
  | listPlayersFallback c e1 =>
    cases r <;>
      exact (fun h => settle _ rfl h.1 h.2.1 h.2.2)
        (viaInvoke c _ s rfl rfl rfl (by simp [Cont.owes, Cont.callback?]))
  | serverInfo c =>
    cases r <;>
      exact (fun h => settle _ rfl h.1 h.2.1 h.2.2)
        (viaInvoke c _ s rfl rfl rfl (by simp [Cont.owes, Cont.callback?]))
  | loginSalt c =>
    cases r with
    | error e => exact fail c e (Or.inl rfl) rfl
    | ok res =>
      cases hh : (createHash.update lib (index res 0) Encoding.hex).bind
          (fun md => md.update lib (Val.str s.pass) Encoding.utf8) with
      | none =>
        have hd := hashing_raises lib c res s.pass hh
        have hr : resume lib (Cont.loginSalt c) (Except.ok res) s
            = s.log Effect.uncaught := by
          simp only [resume, hh]
        rw [hr]
        refine ⟨?_, ?_, ?_, rfl⟩
        · simp [State.log, callsOf]
        · intro _ h; rw [hd] at h; cases h
        · simp [State.log, callsOf]
      | some md =>
        have hr : resume lib (Cont.loginSalt c) (Except.ok res) s
            = exec (Command.list ["login.hashed", toUpperCase (md.digest lib)])
                (Cont.loginConfirm c) s := by
          simp only [resume, hh]
        exact (fun h => settle _ hr h.1 h.2.1 h.2.2) (viaExec _ (Cont.loginConfirm c) rfl)
  | loginConfirm c =>
    cases r with
    | error e => exact fail c e (Or.inr rfl) rfl
    | ok res =>
      obtain ⟨a, b, d⟩ := viaGiven c [Val.null]
        { s with
          loggedIn := true,
          pending := s.pending ++
            [(Command.list ["admin.eventsEnabled", "true"],
                Cont.eventsEnabledSet Callback.ignoreEnabled),
             (Command.word "admin.help", Cont.help Callback.storeCatalog)],
          trace := s.trace ++ [Effect.setLoggedIn true, Effect.emit "login" [],
            Effect.request (Command.list ["admin.eventsEnabled", "true"]),
            Effect.request (Command.word "admin.help")] }
        (by simp [callsOf]) (by simp [owed, Cont.owes, Cont.callback?]) rfl
        (by simp [Cont.owes, Cont.callback?])
      exact settle _ (resume_login_success lib c res s) a b d
  | logout c =>
    cases r <;>
      exact (fun h => settle _ rfl h.1 h.2.1 h.2.2)
        (viaGiven c _ s rfl rfl rfl (by simp [Cont.owes, Cont.callback?]))
  | quit c =>
    cases r <;>
      exact (fun h => settle _ rfl h.1 h.2.1 h.2.2)
        (viaGiven c _ s rfl rfl rfl (by simp [Cont.owes, Cont.callback?]))

theorem deliver_balance {τ : Type} (lib : Lib τ) (id : Nat) (i : Nat)
    (r : Except Err (List String)) (s : State τ) :
    callsOf id (deliver lib i r s).trace + owed id (deliver lib i r s).pending
      ≤ callsOf id s.trace + owed id s.pending ∧
    (s.errorListener = true → saltsDecode lib [(i, r)] s = true →
      callsOf id (deliver lib i r s).trace + owed id (deliver lib i r s).pending
        = callsOf id s.trace + owed id s.pending) ∧
    callsOf id s.trace ≤ callsOf id (deliver lib i r s).trace ∧
    (deliver lib i r s).errorListener = s.errorListener := by
  cases h : s.pending[i]? with
  | none => simp [deliver, h]
  | some x =>
    obtain ⟨c, k⟩ := x
    rw [deliver_of_pending lib i c k r s h]
    obtain ⟨h1, h2, h3, h4⟩ :=
      resume_balance lib id k r { s with pending := s.pending.eraseIdx i }
    have h5 := owed_eraseIdx id s.pending i c k h
    simp only at h1 h2 h3 h4
    refine ⟨by omega, ?_, h3, h4⟩
    intro hl hd
    have := h2 hl (by simpa [saltsDecode, h] using hd)
    omega

theorem run_balance {τ : Type} (lib : Lib τ) (id : Nat)
    (script : List (Nat × Except Err (List String))) (s : State τ) :
    callsOf id (run lib script s).trace + owed id (run lib script s).pending
      ≤ callsOf id s.trace + owed id s.pending ∧
    (s.errorListener = true → saltsDecode lib script s = true →
      callsOf id (run lib script s).trace + owed id (run lib script s).pending
        = callsOf id s.trace + owed id s.pending) ∧
    callsOf id s.trace ≤ callsOf id (run lib script s).trace := by
  induction script generalizing s with
  | nil => simp [run]
  | cons a rest ih =>
    obtain ⟨a1, a2, a3, a4⟩ := deliver_balance lib id a.1 a.2 s
    obtain ⟨b1, b2, b3⟩ := ih (deliver lib a.1 a.2 s)
    have hrun : run lib (a :: rest) s = run lib rest (deliver lib a.1 a.2 s) := rfl
    rw [hrun]
    refine ⟨by omega, ?_, by omega⟩
    intro hl hd
    have hd2 : (match s.pending[a.1]? with
        | some (_, k) => saltDecodes lib k a.2
        | none => true) = true ∧ saltsDecode lib rest (deliver lib a.1 a.2 s) = true := by
      simpa [saltsDecode] using hd
    have e1 := a2 hl (by simpa [saltsDecode] using hd2.1)
    have e2 := b2 (by rw [a4]; exact hl) hd2.2
    omega

theorem login_salt_step {τ : Type} (lib : Lib τ) (s : State τ)
    (callback : Option Callback) (salt : String) (rest : List String) (saltBytes : List Nat)
    (hsalt : lib.hexDecode salt = some saltBytes) :
    deliver lib s.pending.length (Except.ok (salt :: rest)) (login callback s)
      = exec (Command.list ["login.hashed", loginDigest lib saltBytes s.pass])
          (Cont.loginConfirm callback)
          { s with trace := s.trace ++ [Effect.request (Command.list ["login.hashed"])] } := by
  rw [login, deliver_exec]
  simp [resume, index, Hash.update, createHash, Hash.digest, hsalt, toUpperCase_hexLower,
    loginDigest]

theorem invokeIfGiven_user {τ : Type} (callback : Option Nat) (args : List (Val τ))
    (s : State τ) :
    invokeIfGiven (callback.map Callback.user) args s
      = { s with trace := s.trace ++ callIfGiven callback args } := by
  cases callback <;> simp [invokeIfGiven, invoke, callIfGiven, State.log]

/-! ## Catalog population (the `login` listener) -/

/-- C1. The `login` listener asks for the help listing with its storing
closure; whenever that request is answered successfully with `msg`, in any
state of the connection, `bc.commands` becomes `msg` unchanged, `bc.vars`
becomes the entries of `msg` beginning with `"vars."` (order and duplicates
kept), and `ready` is emitted after both assignments. -/
theorem login_listener_populates_catalog {τ : Type} (lib : Lib τ) (s t : State τ) (i : Nat)
    (command : Command) (msg : List String)
    (h : t.pending[i]? = some (command, Cont.help Callback.storeCatalog)) :
    (onLogin s).pending = s.pending ++
      [(Command.list ["admin.eventsEnabled", "true"],
          Cont.eventsEnabledSet Callback.ignoreEnabled),
       (Command.word "admin.help", Cont.help Callback.storeCatalog)] ∧
    (deliver lib i (Except.ok msg) t).commands = msg ∧
    (deliver lib i (Except.ok msg) t).vars = varsOf msg ∧
    (deliver lib i (Except.ok msg) t).trace = t.trace ++
      [Effect.setCommands msg, Effect.setVars (varsOf msg), Effect.emit "ready" []] := by
  refine ⟨?_, ?_⟩
  · simp [onLogin, help, eventsEnabled, exec]
  · rw [deliver_of_pending lib i command _ _ t h]
    simp [resume, invoke, storeCatalog_strings, collectVars_eq_varsOf]

/-- C1 at the help listing of the specification's example, answered right after
the listener ran on a fresh connection. -/
theorem login_listener_populates_catalog_witness :
    (onLogin (State.fresh (List String) "pw")).pending[1]?
      = some (Command.word "admin.help", Cont.help Callback.storeCatalog) ∧
    (deliver Lib.sample 1 (Except.ok ["vars.foo", "admin.bar", "vars.baz"])
      (onLogin (State.fresh (List String) "pw"))).commands
      = ["vars.foo", "admin.bar", "vars.baz"] ∧
    (deliver Lib.sample 1 (Except.ok ["vars.foo", "admin.bar", "vars.baz"])
      (onLogin (State.fresh (List String) "pw"))).vars = ["vars.foo", "vars.baz"] :=
  ⟨by decide,
   (login_listener_populates_catalog Lib.sample (State.fresh (List String) "pw")
      (onLogin (State.fresh (List String) "pw")) 1 (Command.word "admin.help")
      ["vars.foo", "admin.bar", "vars.baz"] (by decide)).2.1,
   (login_listener_populates_catalog Lib.sample (State.fresh (List String) "pw")
      (onLogin (State.fresh (List String) "pw")) 1 (Command.word "admin.help")
      ["vars.foo", "admin.bar", "vars.baz"] (by decide)).2.2.1.trans (by decide)⟩

/-! ## Login handshake -/

/-- C2. When the first `login.hashed` request is answered with a salt word
that hex-decodes to `saltBytes`, the next thing `login` does is send exactly
the two words `login.hashed` and the uppercase hexadecimal MD5 of `saltBytes`
followed by the UTF-8 bytes of the stored password; for salt `2A` and password
`x` the hashed bytes are `0x2A, 0x78`. -/
theorem login_sends_digest {τ : Type} (lib : Lib τ) (s : State τ)
    (callback : Option Callback) (salt : String) (rest : List String) (saltBytes : List Nat)
    (hsalt : lib.hexDecode salt = some saltBytes) :
    (deliver lib s.pending.length (Except.ok (salt :: rest)) (login callback s)).trace
      = s.trace ++ [Effect.request (Command.list ["login.hashed"]),
          Effect.request (Command.list ["login.hashed",
            hexUpper (lib.md5 (saltBytes ++ utf8Encode s.pass))])] ∧
    (deliver lib s.pending.length (Except.ok (salt :: rest)) (login callback s)).pending
      = s.pending ++ [(Command.list ["login.hashed", loginDigest lib saltBytes s.pass],
          Cont.loginConfirm callback)] ∧
    (createHash.update lib (Val.str "2A") Encoding.hex).bind
        (fun md => md.update lib (Val.str "x") Encoding.utf8)
      = some { buffer := [0x2A, 0x78] } := by
  refine ⟨?_, ?_, ?_⟩
  · rw [login_salt_step lib s callback salt rest saltBytes hsalt]
    simp [exec, loginDigest]
  · rw [login_salt_step lib s callback salt rest saltBytes hsalt]
    simp [exec]
  · have h : lib.hexDecode "2A" = some (hexBytes "2A".data) :=
      lib.hexDecode_hex "2A" (by decide)
    have h2 : hexBytes "2A".data = [0x2A] := by decide
    have h3 : utf8Encode "x" = [0x78] := by decide
    simp [Hash.update, createHash, h, h2, h3]

/-- C2 at salt `2A` and password `x`, with a digest function that returns its
input: the second word sent is the hexadecimal text of the bytes `2A 78`. -/
theorem login_sends_digest_witness :
    Lib.sample.hexDecode "2A" = some [0x2A] ∧
    (deliver Lib.sample 0 (Except.ok ["2A"])
        (login none (State.fresh (List String) "x"))).trace
      = [Effect.request (Command.list ["login.hashed"]),
         Effect.request (Command.list ["login.hashed", "2A78"])] :=
  ⟨by decide,
   (login_sends_digest Lib.sample (State.fresh (List String) "x") none "2A" [] [0x2A]
      (by decide)).1.trans (by decide)⟩

/-- C3 fails as stated: on a connection nobody listens to for `error` (the
module registers no such listener), a failed salt request ends the socket, then
`bc.emit("error", e)` raises, so no `error` event reaches anybody and the
callback given to `login` is not invoked. -/
theorem login_failure_without_error_listener :
    deliver Lib.sample 0 (Except.error { message := "UnknownCommand" })
        (login (some (Callback.user 5)) (State.fresh (List String) "x"))
      = { State.fresh (List String) "x" with
          sockEnded := true,
          trace := [Effect.request (Command.list ["login.hashed"]), Effect.sockEnd,
            Effect.uncaught] } ∧
    callsOf 5 (deliver Lib.sample 0 (Except.error { message := "UnknownCommand" })
        (login (some (Callback.user 5)) (State.fresh (List String) "x"))).trace = 0 ∧
    (deliver Lib.sample 0 (Except.error { message := "UnknownCommand" })
        (login (some (Callback.user 5)) (State.fresh (List String) "x"))).trace.any
      (reports { message := "UnknownCommand" }) = false := by
  decide

/-- C3 as amended.  Outcome of `login` for every answer of the server.  An
error `e` at the salt step or at the digest step ends the socket, leaves
`loggedIn` as it was and emits no `login` (after a failed salt step nothing
more is requested); then, if somebody listens to `error`, `error` is emitted
with `e` and `e` is passed to the callback when one was given, and if nobody
does, the emission raises and the callback is not invoked.  Two successes set
`loggedIn`, emit `login` (which runs the catalog listener), pass `null` to the
callback and leave the socket alone. -/
theorem login_outcome {τ : Type} (lib : Lib τ) (s : State τ) (callback : Option Nat)
    (e : Err) (salt : String) (rest confirm : List String) (saltBytes : List Nat)
    (hsalt : lib.hexDecode salt = some saltBytes) :
    deliver lib s.pending.length (Except.error e) (login (callback.map Callback.user) s)
      = { s with
          sockEnded := true,
          trace := s.trace ++ [Effect.request (Command.list ["login.hashed"]),
            Effect.sockEnd]
            ++ (if s.errorListener = true then
                  Effect.emit "error" [Val.error e] :: callIfGiven callback [Val.error e]
                else [Effect.uncaught]) } ∧
    deliver lib s.pending.length (Except.error e)
        (deliver lib s.pending.length (Except.ok (salt :: rest))
          (login (callback.map Callback.user) s))
      = { s with
          sockEnded := true,
          trace := s.trace ++ [Effect.request (Command.list ["login.hashed"]),
            Effect.request (Command.list ["login.hashed", loginDigest lib saltBytes s.pass]),
            Effect.sockEnd]
            ++ (if s.errorListener = true then
                  Effect.emit "error" [Val.error e] :: callIfGiven callback [Val.error e]
                else [Effect.uncaught]) } ∧
    deliver lib s.pending.length (Except.ok confirm)
        (deliver lib s.pending.length (Except.ok (salt :: rest))
          (login (callback.map Callback.user) s))
      = { s with
          loggedIn := true,
          pending := s.pending ++
            [(Command.list ["admin.eventsEnabled", "true"],
                Cont.eventsEnabledSet Callback.ignoreEnabled),
             (Command.word "admin.help", Cont.help Callback.storeCatalog)],
          trace := s.trace ++ [Effect.request (Command.list ["login.hashed"]),
            Effect.request (Command.list ["login.hashed", loginDigest lib saltBytes s.pass]),
            Effect.setLoggedIn true, Effect.emit "login" [],
            Effect.request (Command.list ["admin.eventsEnabled", "true"]),
            Effect.request (Command.word "admin.help")]
            ++ callIfGiven callback [Val.null] } := by
  refine ⟨?_, ?_, ?_⟩
  · rw [login, deliver_exec, resume_login_failure lib _ _ e _ (Or.inl rfl)]
    cases hl : s.errorListener <;> simp [invokeIfGiven_user, hl]
  · rw [login_salt_step lib s _ salt rest saltBytes hsalt]
    refine Eq.trans (deliver_exec_at lib _ _ _ _ _ rfl) ?_
    rw [resume_login_failure lib _ _ e _ (Or.inr rfl)]
    cases hl : s.errorListener <;> simp [invokeIfGiven_user, hl]
  · rw [login_salt_step lib s _ salt rest saltBytes hsalt]
    refine Eq.trans (deliver_exec_at lib _ _ _ _ _ rfl) ?_
    rw [resume_login_success]
    simp [invokeIfGiven_user]

/-- C3 on a connection with an `error` listener and callback `5`: a refused
digest ends the socket and reports the error twice (event and callback)
without logging in. -/
theorem login_outcome_witness :
    Lib.sample.hexDecode "2A" = some [0x2A] ∧
    deliver Lib.sample 0 (Except.error { message := "InvalidPasswordHash" })
        (deliver Lib.sample 0 (Except.ok ["2A"])
          (login (some (Callback.user 5)) (State.attended (List String) "x")))
      = { State.attended (List String) "x" with
          sockEnded := true,
          trace := [Effect.request (Command.list ["login.hashed"]),
            Effect.request (Command.list ["login.hashed", "2A78"]),
            Effect.sockEnd,
            Effect.emit "error" [Val.error { message := "InvalidPasswordHash" }],
            Effect.call 5 [Val.error { message := "InvalidPasswordHash" }]] } :=
  ⟨by decide,
   (login_outcome Lib.sample (State.attended (List String) "x") (some 5)
      { message := "InvalidPasswordHash" } "2A" [] [] [0x2A] (by decide)).2.1.trans
      (by decide)⟩

/-! ## Derived query operations -/

/-- C4 fails as stated: on a fresh connection `eventsEnabled(true, cb)` whose
set request is refused issues no query request at all; the callback receives
the error and nothing is left pending. -/
theorem eventsEnabled_set_refused_no_query :
    Effect.request (Command.list ["admin.eventsEnabled"]) ∉
      (deliver Lib.sample 0 (Except.error { message := "InvalidArguments" })
        (eventsEnabled (some true) (Callback.user 7) (State.fresh (List String) "pw"))).trace ∧
    deliver Lib.sample 0 (Except.error { message := "InvalidArguments" })
        (eventsEnabled (some true) (Callback.user 7) (State.fresh (List String) "pw"))
      = { State.fresh (List String) "pw" with
          trace := [Effect.request (Command.list ["admin.eventsEnabled", "true"]),
            Effect.call 7 [Val.error { message := "InvalidArguments" }]] } := by
  decide

/-- C4 as amended. `eventsEnabled(b, cb)` issues the set request
`["admin.eventsEnabled", "true" | "false"]`.  If the set request fails with `e`
the callback receives `e` and no query is issued.  If it succeeds (whatever it
answers) the query `["admin.eventsEnabled"]` is issued, and a successful query
answer `res` gives the callback `(null, res[0] === "true")`: the server's
post-set state, independent of `b`. -/
theorem eventsEnabled_set_then_query {τ : Type} (lib : Lib τ) (s : State τ) (b : Bool)
    (cb : Nat) (e : Err) (setRes res : List String) :
    eventsEnabled (some b) (Callback.user cb) s
      = { s with
          pending := s.pending ++
            [(Command.list ["admin.eventsEnabled", if b then "true" else "false"],
              Cont.eventsEnabledSet (Callback.user cb))],
          trace := s.trace ++
            [Effect.request (Command.list ["admin.eventsEnabled",
              if b then "true" else "false"])] } ∧
    deliver lib s.pending.length (Except.error e) (eventsEnabled (some b) (Callback.user cb) s)
      = { s with
          trace := s.trace ++
            [Effect.request (Command.list ["admin.eventsEnabled",
              if b then "true" else "false"]),
             Effect.call cb [Val.error e]] } ∧
    deliver lib s.pending.length (Except.ok res)
        (deliver lib s.pending.length (Except.ok setRes)
          (eventsEnabled (some b) (Callback.user cb) s))
      = { s with
          trace := s.trace ++
            [Effect.request (Command.list ["admin.eventsEnabled",
              if b then "true" else "false"]),
             Effect.request (Command.list ["admin.eventsEnabled"]),
             Effect.call cb [Val.null, Val.bool (decide (res.head? = some "true"))]] } := by
  refine ⟨rfl, ?_, ?_⟩
  · rw [eventsEnabled, deliver_exec]
    simp [resume, invoke, State.log]
  · rw [eventsEnabled, deliver_exec]
    simp only [resume]
    refine Eq.trans (deliver_exec_at lib _ _ _ _ _ rfl) ?_
    rw [first_word_true]
    simp [resume, invoke, State.log]

/-- C5. `listPlayers` first issues `["admin.listPlayers", "all"]`.  A
successful answer `res` gives the callback `(null, tabulate(res))` and nothing
more is requested.  A failure makes it issue the legacy `["listPlayers"]` once,
and a successful answer `res2` to that gives `(null, tabulate(res2))`.  The
legacy request is among the effects of the first answer exactly when that
answer is a failure. -/
theorem listPlayers_fallback {τ : Type} (lib : Lib τ) (s : State τ) (cb : Nat) (e : Err)
    (res res2 : List String) (r : Except Err (List String)) :
    listPlayers (Callback.user cb) s
      = { s with
          pending := s.pending ++
            [(Command.list ["admin.listPlayers", "all"], Cont.listPlayers (Callback.user cb))],
          trace := s.trace ++ [Effect.request (Command.list ["admin.listPlayers", "all"])] } ∧
    deliver lib s.pending.length (Except.ok res) (listPlayers (Callback.user cb) s)
      = { s with
          trace := s.trace ++ [Effect.request (Command.list ["admin.listPlayers", "all"]),
            Effect.call cb [Val.null, Val.table (lib.tabulate res)]] } ∧
    deliver lib s.pending.length (Except.ok res2)
        (deliver lib s.pending.length (Except.error e) (listPlayers (Callback.user cb) s))
      = { s with
          trace := s.trace ++ [Effect.request (Command.list ["admin.listPlayers", "all"]),
            Effect.request (Command.list ["listPlayers"]),
            Effect.call cb [Val.null, Val.table (lib.tabulate res2)]] } ∧
    (Effect.request (Command.list ["listPlayers"]) ∈
        (deliver lib s.pending.length r (listPlayers (Callback.user cb) s)).trace.drop
          s.trace.length
      ↔ ∃ e1, r = Except.error e1) := by
  refine ⟨rfl, ?_, ?_, ?_⟩
  · rw [listPlayers, deliver_exec]
    simp [resume, invoke, State.log]
  · rw [listPlayers, deliver_exec]
    simp only [resume]
    refine Eq.trans (deliver_exec_at lib _ _ _ _ _ rfl) ?_
    simp [resume, invoke, State.log]
  · rw [listPlayers, deliver_exec]
    cases r with
    | error e1 => simp [resume, exec]
    | ok ws => simp [resume, invoke, State.log]

/-- C9. When `["admin.listPlayers", "all"]` fails with `e1` and the fallback
`["listPlayers"]` fails with `e2`, exactly those two requests were issued and
the callback is called once with `e1` alone; `e2` occurs in nothing the module
calls or emits unless it is `e1` itself. -/
theorem listPlayers_double_failure {τ : Type} (lib : Lib τ) (s : State τ) (cb : Nat)
    (e1 e2 : Err) :
    deliver lib s.pending.length (Except.error e2)
        (deliver lib s.pending.length (Except.error e1) (listPlayers (Callback.user cb) s))
      = { s with
          trace := s.trace ++ [Effect.request (Command.list ["admin.listPlayers", "all"]),
            Effect.request (Command.list ["listPlayers"]),
            Effect.call cb [Val.error e1]] } ∧
    ((deliver lib s.pending.length (Except.error e2)
        (deliver lib s.pending.length (Except.error e1)
          (listPlayers (Callback.user cb) s))).trace.drop s.trace.length).any (reports e2)
      = decide (e2 = e1) := by
  refine ⟨listPlayers_fails_twice lib s cb e1 e2, ?_⟩
  rw [listPlayers_fails_twice]
  simp [reports, eq_comm]

/-- C6. A failing request of `version`, `help`, `serverInfo`, `logout`, `quit`
or `eventsEnabled` (query mode; set mode at the set step and at the query
step) ends the operation: the callback receives the error alone and no further
request goes out, so the connection is as before apart from the trace.  Only
`listPlayers` answers a failure with another request, `["listPlayers"]`. -/
theorem failure_is_forwarded_without_retry {τ : Type} (lib : Lib τ) (s : State τ) (cb : Nat)
    (ocb : Option Nat) (b : Bool) (e : Err) (setRes : List String) :
    deliver lib s.pending.length (Except.error e) (version (Callback.user cb) s)
      = { s with trace := s.trace ++
          [Effect.request (Command.list ["version"]), Effect.call cb [Val.error e]] } ∧
    deliver lib s.pending.length (Except.error e) (help (Callback.user cb) s)
      = { s with trace := s.trace ++
          [Effect.request (Command.word "admin.help"), Effect.call cb [Val.error e]] } ∧
    deliver lib s.pending.length (Except.error e) (serverInfo (Callback.user cb) s)
      = { s with trace := s.trace ++
          [Effect.request (Command.list ["serverInfo"]), Effect.call cb [Val.error e]] } ∧
    deliver lib s.pending.length (Except.error e) (logout (ocb.map Callback.user) s)
      = { s with trace := s.trace ++
          [Effect.request (Command.list ["logout"])] ++ callIfGiven ocb [Val.error e] } ∧
    deliver lib s.pending.length (Except.error e) (quit (ocb.map Callback.user) s)
      = { s with trace := s.trace ++
          [Effect.request (Command.list ["quit"])] ++ callIfGiven ocb [Val.error e] } ∧
    deliver lib s.pending.length (Except.error e) (eventsEnabled none (Callback.user cb) s)
      = { s with trace := s.trace ++
          [Effect.request (Command.list ["admin.eventsEnabled"]),
           Effect.call cb [Val.error e]] } ∧
    deliver lib s.pending.length (Except.error e)
        (eventsEnabled (some b) (Callback.user cb) s)
      = { s with trace := s.trace ++
          [Effect.request (Command.list ["admin.eventsEnabled",
            if b then "true" else "false"]),
           Effect.call cb [Val.error e]] } ∧
    deliver lib s.pending.length (Except.error e)
        (deliver lib s.pending.length (Except.ok setRes)
          (eventsEnabled (some b) (Callback.user cb) s))
      = { s with trace := s.trace ++
          [Effect.request (Command.list ["admin.eventsEnabled",
            if b then "true" else "false"]),
           Effect.request (Command.list ["admin.eventsEnabled"]),
           Effect.call cb [Val.error e]] } ∧
    deliver lib s.pending.length (Except.error e) (listPlayers (Callback.user cb) s)
      = { s with
          pending := s.pending ++
            [(Command.list ["listPlayers"], Cont.listPlayersFallback (Callback.user cb) e)],
          trace := s.trace ++
            [Effect.request (Command.list ["admin.listPlayers", "all"]),
             Effect.request (Command.list ["listPlayers"])] } := by
  refine ⟨?_, ?_, ?_, ?_, ?_, ?_, ?_, ?_, ?_⟩
  · rw [version, deliver_exec]
    simp [resume, invoke, State.log]
  · rw [help, deliver_exec]
    simp [resume, invoke, State.log]
  · rw [serverInfo, deliver_exec]
    simp [resume, invoke, State.log]
  · rw [logout, deliver_exec]
    simp [resume, invokeIfGiven_user]
  · rw [quit, deliver_exec]
    simp [resume, invokeIfGiven_user]
  · rw [eventsEnabled, deliver_exec]
    simp [resume, invoke, State.log]
  · rw [eventsEnabled, deliver_exec]
    simp [resume, invoke, State.log]
  · rw [eventsEnabled, deliver_exec]
    simp only [resume]
    refine Eq.trans (deliver_exec_at lib _ _ _ _ _ rfl) ?_
    simp [resume, invoke, State.log]
  · rw [listPlayers, deliver_exec]
    simp [resume, exec]

/-! ## Which failures reach the caller -/

/-- C7 fails as stated: when the `admin.help` request of the `login` listener
fails, the error reaches no callback and no `error` emission; the listener's
closure returns and the connection only loses the pending entry. -/
theorem login_listener_drops_help_error :
    deliver Lib.sample 1 (Except.error { message := "LogInRequired" })
        (onLogin (State.fresh (List String) "pw"))
      = { State.fresh (List String) "pw" with
          pending := [(Command.list ["admin.eventsEnabled", "true"],
            Cont.eventsEnabledSet Callback.ignoreEnabled)],
          trace := [Effect.request (Command.list ["admin.eventsEnabled", "true"]),
            Effect.request (Command.word "admin.help")] } ∧
    (deliver Lib.sample 1 (Except.error { message := "LogInRequired" })
        (onLogin (State.fresh (List String) "pw"))).trace.any
      (reports { message := "LogInRequired" }) = false := by
  decide

/-- C7 as amended.  What becomes of the error `e` of a failing request, in any
state of the connection.  A request of `version`, `help`, `eventsEnabled` or
`serverInfo` working for a caller's callback, or of `logout` / `quit` called
with a callback: `e` alone is passed to that very callback and nothing else
happens.  A request of `login`, when somebody listens to `error`: the socket is
ended, `error` is emitted with `e`, and `e` is passed to the callback of
`login` when one was given.  The three requests of the `login` listener (set
and query of its `eventsEnabled(true)`, and its `admin.help`) and a request of
`logout` / `quit` called without a callback: the failure has no effect at all.
`listPlayers`: when both requests fail, the first error is passed to its
callback. -/
theorem failure_reaches_caller {τ : Type} (lib : Lib τ) (s t : State τ) (i : Nat)
    (command : Command) (k : Cont) (e e2 : Err) (cb : Nat) (ocb : Option Nat)
    (h : t.pending[i]? = some (command, k)) :
    (k.reportsTo = some cb →
      deliver lib i (Except.error e) t
        = { t with
            pending := t.pending.eraseIdx i,
            trace := t.trace ++ [Effect.call cb [Val.error e]] }) ∧
    ((k = Cont.loginSalt (ocb.map Callback.user) ∨
        k = Cont.loginConfirm (ocb.map Callback.user)) →
      t.errorListener = true →
      deliver lib i (Except.error e) t
        = { t with
            sockEnded := true,
            pending := t.pending.eraseIdx i,
            trace := t.trace ++ [Effect.sockEnd, Effect.emit "error" [Val.error e]]
              ++ callIfGiven ocb [Val.error e] }) ∧
    (k.ofLoginListener = true →
      deliver lib i (Except.error e) t = { t with pending := t.pending.eraseIdx i }) ∧
    ((k = Cont.logout none ∨ k = Cont.quit none) →
      deliver lib i (Except.error e) t = { t with pending := t.pending.eraseIdx i }) ∧
    deliver lib s.pending.length (Except.error e2)
        (deliver lib s.pending.length (Except.error e) (listPlayers (Callback.user cb) s))
      = { s with
          trace := s.trace ++ [Effect.request (Command.list ["admin.listPlayers", "all"]),
            Effect.request (Command.list ["listPlayers"]),
            Effect.call cb [Val.error e]] } := by
  rw [deliver_of_pending lib i command k _ t h]
  refine ⟨?_, ?_, ?_, ?_, listPlayers_fails_twice lib s cb e e2⟩
  · intro hk
    cases k with
    | logout c =>
      rcases c with _ | c
      · simp [Cont.reportsTo] at hk
      · cases c <;> simp_all [Cont.reportsTo, resume, invokeIfGiven, invoke, State.log]
    | quit c =>
      rcases c with _ | c
      · simp [Cont.reportsTo] at hk
      · cases c <;> simp_all [Cont.reportsTo, resume, invokeIfGiven, invoke, State.log]
    | listPlayers c => cases c <;> simp [Cont.reportsTo] at hk
    | listPlayersFallback c e1 => cases c <;> simp [Cont.reportsTo] at hk
    | loginSalt c => simp [Cont.reportsTo] at hk
    | loginConfirm c => simp [Cont.reportsTo] at hk
    | version c => cases c <;> simp_all [Cont.reportsTo, resume, invoke, State.log]
    | help c => cases c <;> simp_all [Cont.reportsTo, resume, invoke, State.log]
    | eventsEnabledQuery c =>
      cases c <;> simp_all [Cont.reportsTo, resume, invoke, State.log]
    | eventsEnabledSet c =>
      cases c <;> simp_all [Cont.reportsTo, resume, invoke, State.log]
    | eventsEnabledRequery c =>
      cases c <;> simp_all [Cont.reportsTo, resume, invoke, State.log]
    | serverInfo c => cases c <;> simp_all [Cont.reportsTo, resume, invoke, State.log]
  · intro hk hl
    rw [resume_login_failure lib k _ e _ hk, if_pos hl]
    simp [invokeIfGiven_user]
  · intro hk
    cases k with
    | help c => cases c <;> simp_all [Cont.ofLoginListener, resume, invoke, storeCatalog, truthy]
    | eventsEnabledSet c => cases c <;> simp_all [Cont.ofLoginListener, resume, invoke]
    | eventsEnabledRequery c => cases c <;> simp_all [Cont.ofLoginListener, resume, invoke]
    | _ => simp [Cont.ofLoginListener] at hk
  · intro hk
    rcases hk with hk | hk <;> subst hk <;> simp [resume, invokeIfGiven]

/-- C7 at three failing answers: to a query-mode `eventsEnabled(cb)` behind a
pending `version` request, to the `eventsEnabled(true)` of the `login`
listener, and to the salt request of a `login` on a connection with an `error`
listener. -/
theorem failure_reaches_caller_witness :
    (eventsEnabled none (Callback.user 2)
        (version (Callback.user 1) (State.fresh (List String) "pw"))).pending[1]?
      = some (Command.list ["admin.eventsEnabled"],
          Cont.eventsEnabledQuery (Callback.user 2)) ∧
    (deliver Lib.sample 1 (Except.error { message := "boom" })
        (eventsEnabled none (Callback.user 2)
          (version (Callback.user 1) (State.fresh (List String) "pw")))).trace
      = [Effect.request (Command.list ["version"]),
         Effect.request (Command.list ["admin.eventsEnabled"]),
         Effect.call 2 [Val.error { message := "boom" }]] ∧
    (deliver Lib.sample 0 (Except.error { message := "boom" })
        (onLogin (State.fresh (List String) "pw"))).trace
      = [Effect.request (Command.list ["admin.eventsEnabled", "true"]),
         Effect.request (Command.word "admin.help")] ∧
    (deliver Lib.sample 0 (Except.error { message := "boom" })
        (login (some (Callback.user 4)) (State.attended (List String) "pw"))).trace
      = [Effect.request (Command.list ["login.hashed"]), Effect.sockEnd,
         Effect.emit "error" [Val.error { message := "boom" }],
         Effect.call 4 [Val.error { message := "boom" }]] :=
  ⟨by decide,
   (congrArg State.trace
      ((failure_reaches_caller Lib.sample (State.fresh (List String) "pw")
        (eventsEnabled none (Callback.user 2)
          (version (Callback.user 1) (State.fresh (List String) "pw")))
        1 (Command.list ["admin.eventsEnabled"]) (Cont.eventsEnabledQuery (Callback.user 2))
        { message := "boom" } { message := "boom" } 2 none (by decide)).1 (by decide))).trans
      (by decide),
   (congrArg State.trace
      ((failure_reaches_caller Lib.sample (State.fresh (List String) "pw")
        (onLogin (State.fresh (List String) "pw"))
        0 (Command.list ["admin.eventsEnabled", "true"])
        (Cont.eventsEnabledSet Callback.ignoreEnabled)
        { message := "boom" } { message := "boom" } 0 none (by decide)).2.2.1
          (by decide))).trans (by decide),
   (congrArg State.trace
      ((failure_reaches_caller Lib.sample (State.fresh (List String) "pw")
        (login (some (Callback.user 4)) (State.attended (List String) "pw"))
        0 (Command.list ["login.hashed"]) (Cont.loginSalt (some (Callback.user 4)))
        { message := "boom" } { message := "boom" } 0 (some 4) (by decide)).2.1
          (Or.inl rfl) (by decide))).trans (by decide)⟩

/-! ## The catalog across logins -/

/-- C8 fails as stated: after two complete successful logins on one
connection, the first with help listing `["vars.a", "b"]` and the second with a
failing `admin.help`, every request has been answered and the catalog still
holds the entries of the first login. -/
theorem catalog_survives_failed_help :
    twoLogins.commands = ["vars.a", "b"] ∧
    twoLogins.vars = ["vars.a"] ∧
    twoLogins.pending = [] ∧
    twoLogins.loggedIn = true ∧
    twoLogins.trace.count (Effect.emit "login" []) = 2 ∧
    twoLogins.trace.count (Effect.emit "ready" []) = 1 := by
  decide

/-- C8 as amended.  A successful answer `msg` to the listener's `admin.help`
request makes the catalog that login's listing; a failed answer to any
request, and any answer to a request that does not work for the listener's
storing closure, leaves `bc.commands` and `bc.vars` exactly as they were; and
starting a login or running the listener does not touch them either.  The
catalog is never cleared. -/
theorem catalog_changes_only_on_help_success {τ : Type} (lib : Lib τ) (t : State τ) (i : Nat)
    (command : Command) (k : Cont) (msg : List String) (e : Err)
    (r : Except Err (List String)) (callback : Option Callback)
    (h : t.pending[i]? = some (command, k)) :
    (k = Cont.help Callback.storeCatalog →
      (deliver lib i (Except.ok msg) t).commands = msg ∧
      (deliver lib i (Except.ok msg) t).vars = varsOf msg) ∧
    ((deliver lib i (Except.error e) t).commands = t.commands ∧
      (deliver lib i (Except.error e) t).vars = t.vars) ∧
    (k.callback? ≠ some Callback.storeCatalog →
      (deliver lib i r t).commands = t.commands ∧ (deliver lib i r t).vars = t.vars) ∧
    ((login callback t).commands = t.commands ∧ (login callback t).vars = t.vars) ∧
    ((onLogin t).commands = t.commands ∧ (onLogin t).vars = t.vars) := by
  refine ⟨?_, ?_, ?_, ⟨rfl, rfl⟩, ⟨rfl, rfl⟩⟩
  · intro hk
    subst hk
    rw [deliver_of_pending lib i command _ _ t h]
    simp [resume, invoke, storeCatalog, truthy, emit, State.log, collectVars_eq_varsOf]
  · rw [deliver_of_pending lib i command k _ t h]
    exact resume_error_catalog lib k e _
  · intro hk
    rw [deliver_of_pending lib i command k _ t h]
    exact resume_other_catalog lib k r _ hk

/-- C8 on a connection whose catalog was filled by an earlier login and whose
listener just ran again: a failing `admin.help` answer keeps the old catalog, a
successful one replaces it, and the answer to the event request leaves it. -/
theorem catalog_changes_only_on_help_success_witness :
    (onLogin { State.fresh (List String) "pw" with
        commands := ["vars.a", "b"], vars := ["vars.a"] }).pending[1]?
      = some (Command.word "admin.help", Cont.help Callback.storeCatalog) ∧
    (deliver Lib.sample 1 (Except.error { message := "busy" })
      (onLogin { State.fresh (List String) "pw" with
        commands := ["vars.a", "b"], vars := ["vars.a"] })).commands = ["vars.a", "b"] ∧
    (deliver Lib.sample 1 (Except.ok ["vars.c"])
      (onLogin { State.fresh (List String) "pw" with
        commands := ["vars.a", "b"], vars := ["vars.a"] })).commands = ["vars.c"] ∧
    (deliver Lib.sample 0 (Except.ok [])
      (onLogin { State.fresh (List String) "pw" with
        commands := ["vars.a", "b"], vars := ["vars.a"] })).commands = ["vars.a", "b"] :=
  ⟨by decide,
   (catalog_changes_only_on_help_success Lib.sample
      (onLogin { State.fresh (List String) "pw" with
        commands := ["vars.a", "b"], vars := ["vars.a"] })
      1 (Command.word "admin.help") (Cont.help Callback.storeCatalog) ["vars.c"]
      { message := "busy" } (Except.ok []) none (by decide)).2.1.1,
   ((catalog_changes_only_on_help_success Lib.sample
      (onLogin { State.fresh (List String) "pw" with
        commands := ["vars.a", "b"], vars := ["vars.a"] })
      1 (Command.word "admin.help") (Cont.help Callback.storeCatalog) ["vars.c"]
      { message := "busy" } (Except.ok []) none (by decide)).1 rfl).1,
   ((catalog_changes_only_on_help_success Lib.sample
      (onLogin { State.fresh (List String) "pw" with
        commands := ["vars.a", "b"], vars := ["vars.a"] })
      0 (Command.list ["admin.eventsEnabled", "true"])
      (Cont.eventsEnabledSet Callback.ignoreEnabled) []
      { message := "busy" } (Except.ok []) none (by decide)).2.2.1 (by decide)).1⟩

/-! ## Callback discipline -/

/-- C10 fails as stated for `login`: when the salt request succeeds with an
empty word list, `res[0]` is `undefined`, hashing it raises a `TypeError`, and
the callback given to `login` is never invoked although every request was
answered once. -/
theorem login_empty_salt_never_calls_back :
    run Lib.sample [(0, Except.ok [])]
        (Op.start (Op.login (some (Callback.user 3))) (State.fresh (List String) "pw"))
      = { State.fresh (List String) "pw" with
          trace := [Effect.request (Command.list ["login.hashed"]), Effect.uncaught] } ∧
    callsOf 3 (run Lib.sample [(0, Except.ok [])]
        (Op.start (Op.login (some (Callback.user 3)))
          (State.fresh (List String) "pw"))).trace = 0 := by
  decide

/-- C10 as amended.  Start any one of `version`, `help`, `eventsEnabled`,
`listPlayers`, `serverInfo`, `login`, `logout`, `quit` in any state of the
connection and let the server answer in any order with any results.  Suppose
somebody listens to `error` and every successful answer to a salt request
carries a first word the library decodes.  If the operation was given the
callback `id`, the invocations of `id` made plus those still owed by pending
requests grow by exactly one; so when nothing pending worked for `id` before
the call and nothing pending works for it at the end (in particular once every
request is answered), `id` has been invoked exactly once.  If the operation was
given no callback, no callback is invoked on its behalf, whatever the server
answers. -/
theorem callback_exactly_once {τ : Type} (lib : Lib τ) (op : Op) (id : Nat) (s : State τ)
    (script : List (Nat × Except Err (List String))) :
    (op.callback? = some (Callback.user id) → s.errorListener = true →
      saltsDecode lib script (op.start s) = true →
      callsOf id (run lib script (op.start s)).trace
          + owed id (run lib script (op.start s)).pending
        = callsOf id s.trace + owed id s.pending + 1) ∧
    (op.callback? = some (Callback.user id) → s.errorListener = true →
      saltsDecode lib script (op.start s) = true →
      owed id s.pending = 0 → owed id (run lib script (op.start s)).pending = 0 →
      callsOf id (run lib script (op.start s)).trace = callsOf id s.trace + 1) ∧
    (op.callback? = none → owed id s.pending = 0 →
      callsOf id (run lib script (op.start s)).trace = callsOf id s.trace) := by
  obtain ⟨hc, ho, hl⟩ := start_balance op id s
  obtain ⟨h1, h2, h3⟩ := run_balance lib id script (op.start s)
  have general : op.callback? = some (Callback.user id) → s.errorListener = true →
      saltsDecode lib script (op.start s) = true →
      callsOf id (run lib script (op.start s)).trace
          + owed id (run lib script (op.start s)).pending
        = callsOf id s.trace + owed id s.pending + 1 := by
    intro hcb hls hd
    have hop : Op.owes id op = 1 := by simp [Op.owes, hcb]
    have := h2 (by rw [hl]; exact hls) hd
    omega
  refine ⟨general, ?_, ?_⟩
  · intro hcb hls hd hs hf
    have := general hcb hls hd
    omega
  · intro hcb hs
    have hop : Op.owes id op = 0 := by simp [Op.owes, hcb]
    omega

/-- C10 at a complete successful `login` on a connection with an `error`
listener, the listener's `admin.help` answered before its event requests: with
the callback `3` it is invoked once, without a callback nobody is invoked. -/
theorem callback_exactly_once_witness :
    (Op.login (some (Callback.user 3))).callback? = some (Callback.user 3) ∧
    (State.attended (List String) "pw").errorListener = true ∧
    saltsDecode Lib.sample
      [(0, Except.ok ["2A"]), (0, Except.ok []), (1, Except.ok ["vars.a", "b"]),
       (0, Except.ok []), (0, Except.ok ["true"])]
      (Op.start (Op.login (some (Callback.user 3))) (State.attended (List String) "pw"))
      = true ∧
    (run Lib.sample
      [(0, Except.ok ["2A"]), (0, Except.ok []), (1, Except.ok ["vars.a", "b"]),
       (0, Except.ok []), (0, Except.ok ["true"])]
      (Op.start (Op.login (some (Callback.user 3)))
        (State.attended (List String) "pw"))).pending = [] ∧
    callsOf 3 (run Lib.sample
      [(0, Except.ok ["2A"]), (0, Except.ok []), (1, Except.ok ["vars.a", "b"]),
       (0, Except.ok []), (0, Except.ok ["true"])]
      (Op.start (Op.login (some (Callback.user 3)))
        (State.attended (List String) "pw"))).trace = 1 ∧
    callsOf 3 (run Lib.sample
      [(0, Except.ok ["2A"]), (0, Except.ok []), (1, Except.ok ["vars.a", "b"]),
       (0, Except.ok []), (0, Except.ok ["true"])]
      (Op.start (Op.login none) (State.attended (List String) "pw"))).trace = 0 :=
  ⟨rfl, rfl, by decide, by decide,
   (callback_exactly_once Lib.sample (Op.login (some (Callback.user 3))) 3
      (State.attended (List String) "pw")
      [(0, Except.ok ["2A"]), (0, Except.ok []), (1, Except.ok ["vars.a", "b"]),
       (0, Except.ok []), (0, Except.ok ["true"])]).2.1 rfl rfl (by decide) (by decide)
      (by decide),
   (callback_exactly_once Lib.sample (Op.login none) 3
      (State.attended (List String) "pw")
      [(0, Except.ok ["2A"]), (0, Except.ok []), (1, Except.ok ["vars.a", "b"]),
       (0, Except.ok []), (0, Except.ok ["true"])]).2.2 rfl (by decide)⟩

end BattleCon
